import Mathlib

/-!
Shallow embedding of `polyhedron_tools/misc.py` (SageMath polytope tools).

Coefficients are modelled as rationals.  External collaborators (the Sage
`Polyhedron` double-description backend and the external LP solver) are
modelled as explicit function parameters or as recorded call data.
-/

/-- Dot product of two coefficient vectors.  All uses in the source pair
vectors of matching lengths; shorter input truncates, mirroring iteration
over the shared index range. -/
def dot (u v : List ℚ) : ℚ := (List.zipWith (fun a c => a * c) u v).sum

/-- The two coefficient fields the module distinguishes (`QQ`, `RDF`),
plus any other Sage base ring it might be handed. -/
inductive BaseRing
  | QQ
  | RDF
  | other (name : String)
deriving DecidableEq

/-- Python exceptions that `misc.py` can raise. -/
inductive PyError
  | nameError (missing : String)
  | valueError (msg : String)
  | attributeError (attr : String)
deriving DecidableEq

/-- One H-representation generator of a Sage polyhedron: `vec = [β, a_1, …, a_n]`
meaning `a·x + β ≥ 0`, or `a·x + β = 0` when `is_equation` holds. -/
structure HrepGen where
  is_equation : Bool
  vec : List ℚ
deriving DecidableEq

/-- A Sage polyhedron object as seen by this module: its H-representation
generators, its emptiness flag and its base ring. -/
structure Polytope where
  gens : List HrepGen
  is_empty : Bool
  ring : BaseRing

/-- A Sage matrix: a base-ring tag plus dense rows. -/
structure TaggedMat where
  ring : BaseRing
  rows : List (List ℚ)
deriving DecidableEq

/-- A Sage vector: a base-ring tag plus its entries. -/
structure TaggedVec where
  ring : BaseRing
  entries : List ℚ
deriving DecidableEq

/-- Row accumulation of `polyhedron_to_Hrep` in default mode (misc.py lines
149-170): an equality generator `[β, a]` contributes the two rows `(-a, β)`
and `(a, β)` (the bound `pi_vec[0]` is appended for both rows); an
inequality generator contributes the single row `(-a, β)`. -/
def hrepDefaultRows : List HrepGen → List (List ℚ) × List ℚ
  | [] => ([], [])
  | g :: gs =>
    let rest := hrepDefaultRows gs
    let a := g.vec.tail
    let beta := g.vec.headD 0
    if g.is_equation then
      ((a.map (fun c => -c)) :: a :: rest.1, beta :: beta :: rest.2)
    else
      ((a.map (fun c => -c)) :: rest.1, beta :: rest.2)

/-- Result of the separate-equality extraction (misc.py lines 172-188). -/
structure SepRows where
  A : List (List ℚ)
  b : List ℚ
  Aeq : List (List ℚ)
  beq : List ℚ

/-- Row accumulation of `polyhedron_to_Hrep` with
`separate_equality_constraints = True`: equality generators go once to
`(Aeq, beq)` as `(-a, β)`; inequality generators go to `(A, b)` as `(-a, β)`. -/
def hrepSeparateRows : List HrepGen → SepRows
  | [] => ⟨[], [], [], []⟩
  | g :: gs =>
    let rest := hrepSeparateRows gs
    let a := g.vec.tail
    let beta := g.vec.headD 0
    if g.is_equation then
      ⟨rest.A, rest.b, (a.map (fun c => -c)) :: rest.Aeq, beta :: rest.beq⟩
    else
      ⟨(a.map (fun c => -c)) :: rest.A, beta :: rest.b, rest.Aeq, rest.beq⟩

/-- Output shape of `polyhedron_to_Hrep`: `[A, b]` or `[A, b, Aeq, beq]`. -/
inductive HrepOut
  | single (A : TaggedMat) (b : TaggedVec)
  | separated (A : TaggedMat) (b : TaggedVec) (Aeq : TaggedMat) (beq : TaggedVec)
deriving DecidableEq

/-- misc.py `polyhedron_to_Hrep`: both modes materialise every output matrix
and vector in `RDF` (`matrix(RDF, …)`, `vector(RDF, …)`). -/
def polyhedron_to_Hrep (P : Polytope) (separate_equality_constraints : Bool) : HrepOut :=
  if separate_equality_constraints then
    let r := hrepSeparateRows P.gens
    .separated ⟨.RDF, r.A⟩ ⟨.RDF, r.b⟩ ⟨.RDF, r.Aeq⟩ ⟨.RDF, r.beq⟩
  else
    let r := hrepDefaultRows P.gens
    .single ⟨.RDF, r.1⟩ ⟨.RDF, r.2⟩

/-- Feasibility of `x` for the extracted system `A x ≤ b` (rowwise). -/
def satisfiesHrep (A : List (List ℚ)) (b : List ℚ) (x : List ℚ) : Prop :=
  ∀ p ∈ A.zip b, dot p.1 x ≤ p.2

/-- The constraint a single generator denotes: `a·x + β ≥ 0`,
or `a·x + β = 0` for an equation. -/
def genHolds (g : HrepGen) (x : List ℚ) : Prop :=
  match g.is_equation with
  | true => dot g.vec.tail x + g.vec.headD 0 = 0
  | false => 0 ≤ dot g.vec.tail x + g.vec.headD 0

/-- Membership of `x` in the set described by a generator list. -/
def satisfiesGens (gens : List HrepGen) (x : List ℚ) : Prop :=
  ∀ g ∈ gens, genHolds g x

/-- Ring tags of all matrices and vectors in an extraction result. -/
def ringsOf : HrepOut → List BaseRing
  | .single A b => [A.ring, b.ring]
  | .separated A b Aeq beq => [A.ring, b.ring, Aeq.ring, beq.ring]

/-- C1: in default mode an equality generator `[β, a]` yields the two rows
`(-a, β)` and `(+a, β)`, but for `β ≠ 0` this fails to represent the original
constraint set: for the 1-dimensional polytope `{x = 5}` (equation generator
`[-5, 1]`, i.e. `x - 5 = 0`), the point `x = 5` satisfies the generator but
violates the extracted system, whose second row says `x ≤ -5` instead of the
correct `x ≤ 5`. -/
theorem polyhedron_to_Hrep_equality_rows_bug :
    polyhedron_to_Hrep ⟨[⟨true, [-5, 1]⟩], false, .QQ⟩ false
      = .single ⟨.RDF, [[-1], [1]]⟩ ⟨.RDF, [-5, -5]⟩
    ∧ satisfiesGens [⟨true, [-5, 1]⟩] [5]
    ∧ ¬ satisfiesHrep [[-1], [1]] [-5, -5] [5] := by
  refine ⟨rfl, ?_, ?_⟩
  · intro g hg
    simp only [List.mem_singleton] at hg
    subst hg
    show dot [1] [5] + (-5) = 0
    norm_num [dot]
  · intro h
    have h2 := h ([1], -5) (by simp)
    norm_num [dot] at h2

/-- C9: in both modes, every matrix and vector returned by
`polyhedron_to_Hrep` carries the floating-double ring tag `RDF`, whatever the
source polytope's ring. -/
theorem polyhedron_to_Hrep_always_RDF (P : Polytope) (sep : Bool) :
    ∀ r ∈ ringsOf (polyhedron_to_Hrep P sep), r = BaseRing.RDF := by
  cases sep <;> simp [polyhedron_to_Hrep, ringsOf]

/-- Witness for C9 at a concrete polytope. -/
theorem polyhedron_to_Hrep_always_RDF_witness :
    BaseRing.RDF = BaseRing.RDF :=
  polyhedron_to_Hrep_always_RDF ⟨[⟨false, [1, 1]⟩], false, .QQ⟩ false
    BaseRing.RDF (by simp [polyhedron_to_Hrep, ringsOf])

/-- Matrix argument of `polyhedron_from_Hrep`: a native Sage matrix or a raw
numpy array (detected in the source by `'numpy.ndarray' in str(type(A))`). -/
inductive MatInput
  | sage (ring : BaseRing) (rows : List (List ℚ))
  | numpy (rows : List (List ℚ))
deriving DecidableEq

/-- Vector argument of `polyhedron_from_Hrep`. -/
inductive VecInput
  | sage (ring : BaseRing) (entries : List ℚ)
  | numpy (entries : List ℚ)
deriving DecidableEq

/-- The data handed to Sage's external `Polyhedron` constructor. -/
structure PolyhedronCall where
  ieqs : List (List ℚ)
  ring : BaseRing
  backend : String
deriving DecidableEq

/-- The `ieqs` list built at misc.py lines 267-271 and 301-304:
row `i` becomes `[b i, -A i 0, …, -A i (n-1)]` (sign flip because Sage's
`Polyhedron` receives constraints in `a·x + β ≥ 0` form). -/
def ieqsOf (A : List (List ℚ)) (b : List ℚ) : List (List ℚ) :=
  (A.zip b).map (fun p => p.2 :: p.1.map (fun c => -c))

/-- misc.py `polyhedron_from_Hrep` (lines 190-311).  On the numpy-array path
(both the `RDF` branch, lines 245-256, and the `QQ` branch, lines 276-287) the
element-wise casts of `b` and `A` succeed, but the subsequent
`A = copy(A_RDF)` / `A = copy(A_QQ)` raises `NameError`, because the name
`copy` is never imported or defined in the module; the model returns that
error directly.  A numpy `b` next to a native Sage `A` reaches
`b.base_ring()` (line 264 / 297), which numpy arrays do not have.  Any base
ring other than `RDF` and `QQ` raises the `ValueError` of line 309. -/
def polyhedron_from_Hrep (A : MatInput) (b : VecInput) (base_ring : BaseRing) :
    Except PyError PolyhedronCall :=
  match base_ring with
  | .RDF =>
    match A with
    | .numpy _ => .error (.nameError "copy")
    | .sage _ rows =>
      match b with
      | .numpy _ => .error (.attributeError "base_ring")
      | .sage _ entries => .ok ⟨ieqsOf rows entries, .RDF, "cdd"⟩
  | .QQ =>
    match A with
    | .numpy _ => .error (.nameError "copy")
    | .sage _ rows =>
      match b with
      | .numpy _ => .error (.attributeError "base_ring")
      | .sage _ entries => .ok ⟨ieqsOf rows entries, .QQ, "ppl"⟩
  | .other _ => .error (.valueError "Base ring not supported. Try with RDF or QQ.")

/-- C5: contrary to the claim (and to the function's own docstring), a
well-formed raw numpy array pair does not yield a polytope: in both supported
fields the construction crashes with `NameError` on the undefined name
`copy`, right after the element-wise casts. -/
theorem polyhedron_from_Hrep_numpy_crash :
    polyhedron_from_Hrep (.numpy [[1]]) (.numpy [1]) .QQ
      = .error (.nameError "copy")
    ∧ polyhedron_from_Hrep (.numpy [[1]]) (.numpy [1]) .RDF
      = .error (.nameError "copy") :=
  ⟨rfl, rfl⟩

/-- C7: every base ring other than the two supported tags makes
`polyhedron_from_Hrep` fail with the unsupported-ring `ValueError`, whatever
the matrix and vector arguments are; no polytope is returned. -/
theorem polyhedron_from_Hrep_unsupported_ring (A : MatInput) (b : VecInput) (s : String) :
    polyhedron_from_Hrep A b (.other s)
      = .error (.valueError "Base ring not supported. Try with RDF or QQ.") :=
  rfl

/-- Polytope-or-Hrep argument of `support_function`
(`type(P) == list` distinguishes the raw `[A, b]` form). -/
inductive SFInput
  | hrep (A : List (List ℚ)) (b : List ℚ)
  | obj (P : Polytope)

/-- Return shape of `support_function`: the optimal value alone, or the value
paired with the optimizer when `return_xopt` is set. -/
inductive SFRes
  | val (oval : ℚ)
  | valOpt (oval : ℚ) (xopt : List ℚ)
deriving DecidableEq

/-- The scalar part of a `support_function` result. -/
def SFRes.value : SFRes → ℚ
  | .val v => v
  | .valOpt v _ => v

/-- The `(A, b)` extraction inside `support_function` (misc.py lines 463-476):
every generator, equation or not, contributes the single row `(-a, β)`. -/
def sfExtract : List HrepGen → List (List ℚ) × List ℚ
  | [] => ([], [])
  | g :: gs =>
    let rest := sfExtract gs
    ((g.vec.tail.map (fun c => -c)) :: rest.1, g.vec.headD 0 :: rest.2)

/-- misc.py `support_function` (lines 418-503), with the external LP solver as
the parameter `sol` (taking `A`, `b` and the direction `d`, returning the
optimal value and the optimizer's coordinates).  The second output component
counts LP solves; an empty polytope object short-circuits to `0` before any
LP is formulated. -/
def support_function (sol : List (List ℚ) → List ℚ → List ℚ → ℚ × List ℚ)
    (P : SFInput) (d : List ℚ) (return_xopt : Bool) : SFRes × ℕ :=
  match P with
  | .hrep A b =>
    let r := sol A b d
    (if return_xopt then .valOpt r.1 r.2 else .val r.1, 1)
  | .obj Q =>
    if Q.is_empty then (.val 0, 0)
    else
      let Ab := sfExtract Q.gens
      let r := sol Ab.1 Ab.2 d
      (if return_xopt then .valOpt r.1 r.2 else .val r.1, 1)

/-- C6: a polytope object that reports itself empty makes `support_function`
return `0` (for every direction and also when the optimizer is requested)
with zero LP solves. -/
theorem support_function_empty_zero
    (sol : List (List ℚ) → List ℚ → List ℚ → ℚ × List ℚ)
    (Q : Polytope) (d : List ℚ) (rx : Bool) (h : Q.is_empty = true) :
    support_function sol (.obj Q) d rx = (.val 0, 0) := by
  simp [support_function, h]

/-- Witness for C6 at a concrete empty polytope. -/
theorem support_function_empty_zero_witness :
    support_function (fun _ _ _ => (37, [1])) (.obj ⟨[⟨false, [1, 1]⟩], true, .QQ⟩)
      [1, 2] true = (.val 0, 0) :=
  support_function_empty_zero _ _ _ _ rfl

/-- The LP that `support_function` formulates (misc.py lines 478-491):
variables `x 0 … x (d.length - 1)`, maximise `⟨d, x⟩` subject to `A x ≤ b`,
`x` free.  `v` is its optimal value. -/
def IsSupValue (A : List (List ℚ)) (b : List ℚ) (d : List ℚ) (v : ℚ) : Prop :=
  (∃ x, x.length = d.length ∧ satisfiesHrep A b x ∧ dot d x = v)
  ∧ ∀ x, x.length = d.length → satisfiesHrep A b x → dot d x ≤ v

/-- An optimal point of the same LP. -/
def IsOptimalPoint (A : List (List ℚ)) (b : List ℚ) (d : List ℚ) (x : List ℚ) : Prop :=
  x.length = d.length ∧ satisfiesHrep A b x
  ∧ ∀ y, y.length = d.length → satisfiesHrep A b y → dot d y ≤ dot d x

theorem dot_cons (a c : ℚ) (u v : List ℚ) :
    dot (a :: u) (c :: v) = a * c + dot u v := by
  simp [dot]

theorem dot_smul_left (lam : ℚ) (d x : List ℚ) :
    dot (d.map (fun c => lam * c)) x = lam * dot d x := by
  induction d generalizing x with
  | nil => simp [dot]
  | cons a d ih =>
    cases x with
    | nil => simp [dot]
    | cons c x => simp only [List.map_cons, dot_cons, ih, mul_add, mul_assoc]

theorem dot_replicate_zero (n : ℕ) (x : List ℚ) :
    dot (List.replicate n 0) x = 0 := by
  induction n generalizing x with
  | zero => simp [dot]
  | succ m ih =>
    cases x with
    | nil => simp [dot]
    | cons c x => simp [List.replicate_succ, dot_cons, ih]

theorem dot_add_left (d1 d2 x : List ℚ) (h : d1.length = d2.length) :
    dot (List.zipWith (fun c e => c + e) d1 d2) x = dot d1 x + dot d2 x := by
  induction d1 generalizing d2 x with
  | nil =>
    cases d2 with
    | nil => simp [dot]
    | cons e d2 => simp at h
  | cons a d1 ih =>
    cases d2 with
    | nil => simp at h
    | cons e d2 =>
      cases x with
      | nil => simp [dot]
      | cons c x =>
        simp only [List.length_cons, Nat.succ.injEq] at h
        simp only [List.zipWith_cons_cons, dot_cons, ih d2 x h]
        ring

/-- C8: the optimal value of the LP formulated by `support_function` is
positively homogeneous in the direction (`ρ(λd) = λρ(d)` for `λ ≥ 0`),
vanishes on the zero direction whenever the feasible set is nonempty
(`ρ(0) = 0`), and is sub-additive (`ρ(d1+d2) ≤ ρ(d1)+ρ(d2)`). -/
theorem support_function_homogeneous_subadditive :
    (∀ A b d v (lam : ℚ), 0 ≤ lam → IsSupValue A b d v →
      IsSupValue A b (d.map (fun c => lam * c)) (lam * v))
    ∧ (∀ A b (n : ℕ) (x : List ℚ), x.length = n → satisfiesHrep A b x →
      IsSupValue A b (List.replicate n (0 : ℚ)) 0)
    ∧ (∀ A b d1 d2 v1 v2 v12, d1.length = d2.length →
      IsSupValue A b d1 v1 → IsSupValue A b d2 v2 →
      IsSupValue A b (List.zipWith (fun c e => c + e) d1 d2) v12 →
      v12 ≤ v1 + v2) := by
  refine ⟨?_, ?_, ?_⟩
  · rintro A b d v lam hlam ⟨⟨x, hxlen, hxfeas, hxval⟩, hub⟩
    refine ⟨⟨x, by simpa using hxlen, hxfeas, by rw [dot_smul_left, hxval]⟩, ?_⟩
    intro y hylen hyfeas
    rw [dot_smul_left]
    exact mul_le_mul_of_nonneg_left (hub y (by simpa using hylen) hyfeas) hlam
  · rintro A b n x hlen hfeas
    refine ⟨⟨x, by simpa using hlen, hfeas, dot_replicate_zero n x⟩, ?_⟩
    intro y hylen hyfeas
    rw [dot_replicate_zero]
  · rintro A b d1 d2 v1 v2 v12 hlen h1 h2 ⟨⟨x, hxlen, hxfeas, hxval⟩, hub⟩
    rw [List.length_zipWith, ← hlen, min_self] at hxlen
    calc v12 = dot d1 x + dot d2 x := by rw [← dot_add_left d1 d2 x hlen, hxval]
    _ ≤ v1 + v2 :=
        add_le_add (h1.2 x hxlen hxfeas) (h2.2 x (by rw [← hlen, hxlen]) hxfeas)

/-- Witness for C8: the unit interval `0 ≤ x ≤ 1` given as
`A = [[1], [-1]]`, `b = [1, 0]`, direction `d = [1]`, optimal value `1`,
scaled by `λ = 2`; plus the zero-direction and sub-additivity parts at the
same polytope. -/
theorem support_function_homogeneous_subadditive_witness :
    IsSupValue [[1], [-1]] [1, 0] ([(1 : ℚ)].map (fun c => (2 : ℚ) * c)) (2 * 1)
    ∧ IsSupValue [[1], [-1]] [1, 0] (List.replicate 1 (0 : ℚ)) 0
    ∧ (1 : ℚ) ≤ 1 + 0 := by
  have hfeas1 : satisfiesHrep [[1], [-1]] [1, 0] [1] := by
    intro p hp
    fin_cases hp <;> norm_num [dot]
  have hbase : IsSupValue [[1], [-1]] [1, 0] [(1 : ℚ)] 1 := by
    refine ⟨⟨[1], rfl, hfeas1, by norm_num [dot]⟩, ?_⟩
    intro y hy hyfeas
    obtain ⟨a, rfl⟩ := List.length_eq_one.mp hy
    have h1 := hyfeas ([1], 1) (by simp)
    simpa [dot] using h1
  have hzero : IsSupValue [[1], [-1]] [1, 0] (List.replicate 1 (0 : ℚ)) 0 :=
    support_function_homogeneous_subadditive.2.1 [[1], [-1]] [1, 0] 1 [1] rfl hfeas1
  refine ⟨support_function_homogeneous_subadditive.1 [[1], [-1]] [1, 0] [1] 1 2
    (by norm_num) hbase, hzero, ?_⟩
  have hsum : IsSupValue [[1], [-1]] [1, 0]
      (List.zipWith (fun c e => c + e) [(1 : ℚ)] (List.replicate 1 (0 : ℚ))) 1 := by
    have he : List.zipWith (fun c e => c + e) [(1 : ℚ)] (List.replicate 1 (0 : ℚ))
        = [(1 : ℚ)] := by norm_num
    rw [he]
    exact hbase
  exact support_function_homogeneous_subadditive.2.2 [[1], [-1]] [1, 0]
    [1] (List.replicate 1 0) 1 0 1 rfl hbase hzero hsum

/-- The canonical direction built in the source with `zero_vector` followed by
one coordinate assignment: entry `i` is `s`, all others `0`. -/
def canonical (n i : ℕ) (s : ℚ) : List ℚ :=
  (List.range n).map (fun j => if j = i then s else 0)

/-- misc.py `BoxInfty`, center-and-radius branch (lines 586-610), in
H-representation form (`return_HSpaceRep = True`): for each axis `i`, the
external-bound row `e_i ↦ center_i + radius` followed by the internal-bound
row `-e_i ↦ -(center_i - radius)`. -/
def BoxInfty_center_radius (center : List ℚ) (radius : ℚ) : List (List ℚ) × List ℚ :=
  (((List.range center.length).map (fun i =>
      [canonical center.length i 1, canonical center.length i (-1)])).flatten,
   ((List.range center.length).map (fun i =>
      [center.getD i 0 + radius, -(center.getD i 0 - radius)])).flatten)

/-- The H-representation of the box with center `(1,2,3)` and radius `1`:
coefficient rows. -/
def box123A : List (List ℚ) :=
  [[1, 0, 0], [-1, 0, 0], [0, 1, 0], [0, -1, 0], [0, 0, 1], [0, 0, -1]]

/-- The H-representation of the box with center `(1,2,3)` and radius `1`:
bounds. -/
def box123b : List ℚ := [2, 0, 3, -1, 4, -2]

theorem box123_eval : BoxInfty_center_radius [1, 2, 3] 1 = (box123A, box123b) := by
  apply Prod.ext
  · decide
  · show [1 + 1, -(1 - 1), 2 + 1, -(2 - 1), 3 + 1, -(3 - 1)] = box123b
    norm_num [box123b]

theorem box123_feas_234 : satisfiesHrep box123A box123b [2, 3, 4] := by
  intro p hp
  simp only [box123A, box123b] at hp
  fin_cases hp <;> norm_num [dot]

theorem box123_ub (x : List ℚ) (hx : x.length = 3)
    (hfx : satisfiesHrep box123A box123b x) : dot [1, 1, 1] x ≤ 9 := by
  obtain ⟨a, c, e, rfl⟩ := List.length_eq_three.mp hx
  have h1 := hfx ([1, 0, 0], 2) (by simp [box123A, box123b])
  have h3 := hfx ([0, 1, 0], 3) (by simp [box123A, box123b])
  have h5 := hfx ([0, 0, 1], 4) (by simp [box123A, box123b])
  simp [dot] at h1 h3 h5 ⊢
  linarith

/-- C2 counterexample: in the box with center `(1,2,3)` and radius `1`, the
point `(2,2,2)` is feasible but attains objective value `6` in direction
`(1,1,1)`, while the feasible point `(2,3,4)` attains `9`; hence `(2,2,2)` is
not a maximizing point of the LP that `support_function` solves, and cannot
be the optimizer returned with the value `9.0`. -/
theorem support_function_box_optimizer_not_222 :
    dot [1, 1, 1] [2, 2, 2] = 6
    ∧ satisfiesHrep (BoxInfty_center_radius [1, 2, 3] 1).1
        (BoxInfty_center_radius [1, 2, 3] 1).2 [2, 3, 4]
    ∧ dot [1, 1, 1] [2, 3, 4] = 9
    ∧ ¬ IsOptimalPoint (BoxInfty_center_radius [1, 2, 3] 1).1
        (BoxInfty_center_radius [1, 2, 3] 1).2 [1, 1, 1] [2, 2, 2] := by
  rw [box123_eval]
  refine ⟨by norm_num [dot], box123_feas_234, by norm_num [dot], ?_⟩
  rintro ⟨-, -, hopt⟩
  have h9 := hopt [2, 3, 4] (by simp) box123_feas_234
  norm_num [dot] at h9

/-- C2 amended: for the box built by `BoxInfty` with center `(1,2,3)` and
radius `1`, the support function in direction `(1,1,1)` has optimal value `9`
and the unique maximizing point is `(2,3,4)` (as in the source's own doctest,
which returns the optimizer `{0: 2.0, 1: 3.0, 2: 4.0}`). -/
theorem support_function_box_example :
    IsSupValue (BoxInfty_center_radius [1, 2, 3] 1).1
      (BoxInfty_center_radius [1, 2, 3] 1).2 [1, 1, 1] 9
    ∧ IsOptimalPoint (BoxInfty_center_radius [1, 2, 3] 1).1
      (BoxInfty_center_radius [1, 2, 3] 1).2 [1, 1, 1] [2, 3, 4]
    ∧ ∀ x, IsOptimalPoint (BoxInfty_center_radius [1, 2, 3] 1).1
      (BoxInfty_center_radius [1, 2, 3] 1).2 [1, 1, 1] x → x = [2, 3, 4] := by
  rw [box123_eval]
  have hval : dot [1, 1, 1] [2, 3, 4] = 9 := by norm_num [dot]
  refine ⟨⟨⟨[2, 3, 4], rfl, box123_feas_234, hval⟩, fun x hx hfx => box123_ub x (by simpa using hx) hfx⟩,
    ⟨rfl, box123_feas_234, fun y hy hfy => ?_⟩, ?_⟩
  · rw [hval]
    exact box123_ub y (by simpa using hy) hfy
  · rintro x ⟨hlen, hfx, hopt⟩
    obtain ⟨a, c, e, rfl⟩ := List.length_eq_three.mp (by simpa using hlen)
    have h1 := hfx ([1, 0, 0], 2) (by simp [box123A, box123b])
    have h3 := hfx ([0, 1, 0], 3) (by simp [box123A, box123b])
    have h5 := hfx ([0, 0, 1], 4) (by simp [box123A, box123b])
    have h9 := hopt [2, 3, 4] (by simp) box123_feas_234
    rw [hval] at h9
    simp [dot] at h1 h3 h5 h9
    have ha : a = 2 := by linarith
    have hc : c = 3 := by linarith
    have he : e = 4 := by linarith
    rw [ha, hc, he]

/-- Witness for C2: the uniqueness part of the amended statement applied to
the concrete optimizer `(2,3,4)`. -/
theorem support_function_box_example_witness :
    [2, 3, 4] = ([2, 3, 4] : List ℚ) := by
  have h := support_function_box_example
  exact h.2.2 [2, 3, 4] h.2.1

/-- Outcome of the Chebyshev-center computation: the Python list `[]` on a
dimension mismatch, or the center vector. -/
inductive ChebyOutcome
  | emptyResult
  | center (x : List ℚ)
deriving DecidableEq

/-- misc.py `chebyshev_center`, core `(A, b)` path (lines 343-363).  The LP
and its two variable blocks are created first; the guard
`if not n == b.length(): return []` then returns the empty list before any
constraint is added and before the solver runs.  Otherwise one constraint
`v·x + ‖v‖·r ≤ b_i` is added per row (recorded here by its data `(v, b_i)`,
which determines `‖v‖`), the LP is solved once by the external solver `sol`,
and the center is read back.  Output components: result, number of
constraints added, number of solver calls. -/
def chebyshev_center_Ab (sol : List (List ℚ × ℚ) → List ℚ)
    (A : List (List ℚ)) (b : List ℚ) : ChebyOutcome × ℕ × ℕ :=
  if A.length = b.length then
    let rows := A.zip b
    (.center (sol rows), rows.length, 1)
  else
    (.emptyResult, 0, 0)

/-- C4: whenever the row count of `A` differs from the length of `b`, the
Chebyshev-center computation returns the empty result, with zero LP
constraints added and zero solver calls — no error is raised. -/
theorem chebyshev_center_mismatch_empty (sol : List (List ℚ × ℚ) → List ℚ)
    (A : List (List ℚ)) (b : List ℚ) (h : A.length ≠ b.length) :
    chebyshev_center_Ab sol A b = (.emptyResult, 0, 0) := by
  simp [chebyshev_center_Ab, h]

/-- Witness for C4 at a concrete mismatched pair. -/
theorem chebyshev_center_mismatch_empty_witness :
    chebyshev_center_Ab (fun _ => [0, 0]) [[1, 2]] [] = (.emptyResult, 0, 0) :=
  chebyshev_center_mismatch_empty _ _ _ (by simp)

/-- Argument of `radius`: the raw `[A, b]` list form, or any polyhedron
object (the source tests `type(P) == list`). -/
inductive RadiusInput
  | listAb (A : List (List ℚ)) (b : List ℚ)
  | obj (P : Polytope)

/-- misc.py `radius` (lines 367-416): only a `[A, b]` list input enters the
`if` body, which accumulates `max(|ρ(e_i)|, |ρ(-e_i)|)` over the canonical
directions via `support_function` and returns it; any other input (in
particular a polyhedron object) falls off the end of the function, which in
Python yields `None`. -/
def radius (sol : List (List ℚ) → List ℚ → List ℚ → ℚ × List ℚ) :
    RadiusInput → Option ℚ
  | .listAb A b =>
    some ((List.range (A.headD []).length).foldl (fun r i =>
      let n := (A.headD []).length
      let aux1 := |(support_function sol (.hrep A b) (canonical n i 1) false).1.value|
      let r1 := if r ≤ aux1 then aux1 else r
      let aux2 := |(support_function sol (.hrep A b) (canonical n i (-1)) false).1.value|
      if r1 ≤ aux2 then aux2 else r1) 0)
  | .obj _ => none

/-- C10: `radius` produces a value exactly on raw `[A, b]` list input; a
polyhedron object (or any non-list input) yields `None`, with no radius
computed and no error raised. -/
theorem radius_only_list_input :
    (∀ sol (P : Polytope), radius sol (.obj P) = none)
    ∧ (∀ sol A b, ∃ v, radius sol (.listAb A b) = some v) :=
  ⟨fun _ _ => rfl, fun _sol _A _b => ⟨_, rfl⟩⟩

/-- Ordered vertex pairs `(i, j)` with `i < j`, in the iteration order of the
double loop of `diameter_vertex_enumeration` (misc.py lines 695-702). -/
def pairList {α : Type} : List α → List (α × α)
  | [] => []
  | x :: xs => (xs.map (fun y => (x, y))) ++ pairList xs

/-- Coordinatewise difference of two vertices. -/
def vsub (v w : List ℚ) : List ℚ := List.zipWith (fun a c => a - c) v w

/-- Sage `norm(p=oo)`: the maximum absolute entry. -/
def supNorm (v : List ℚ) : ℚ := (v.map (fun a => |a|)).foldl max 0

/-- Squared Euclidean norm; Sage's exact `norm(p=2)` is its square root. -/
def sqNorm (v : List ℚ) : ℚ := (v.map (fun a => a * a)).sum

/-- misc.py `diameter_vertex_enumeration` with the default supremum norm:
the maximum over all vertex pairs of the sup-norm distance. -/
def diameter_vertex_enumeration_sup (vlist : List (List ℚ)) : ℚ :=
  (pairList vlist).foldl (fun diam pq => max diam (supNorm (vsub pq.1 pq.2))) 0

/-- misc.py `diameter_vertex_enumeration` with `p = 2`: the maximum over all
vertex pairs of the exact Euclidean distance (a real square root of the
rational squared distance, as Sage computes symbolically). -/
noncomputable def diameter_vertex_enumeration_p2 (vlist : List (List ℚ)) : ℝ :=
  (pairList vlist).foldl
    (fun diam pq => max diam (Real.sqrt ((sqNorm (vsub pq.1 pq.2) : ℚ) : ℝ))) 0

/-- Maximum squared Euclidean pairwise distance (rational, used to evaluate
the `p = 2` diameter exactly). -/
def diameterSq (vlist : List (List ℚ)) : ℚ :=
  (pairList vlist).foldl (fun m pq => max m (sqNorm (vsub pq.1 pq.2))) 0

/-- Integer mirror of `vsub`, for kernel evaluation. -/
def vsubZ (v w : List ℤ) : List ℤ := List.zipWith (fun a c => a - c) v w

/-- Integer mirror of `supNorm`. -/
def supNormZ (v : List ℤ) : ℤ := (v.map (fun a => |a|)).foldl max 0

/-- Integer mirror of `sqNorm`. -/
def sqNormZ (v : List ℤ) : ℤ := (v.map (fun a => a * a)).sum

/-- Integer mirror of `diameter_vertex_enumeration_sup`. -/
def diameterSupZ (vlist : List (List ℤ)) : ℤ :=
  (pairList vlist).foldl (fun m pq => max m (supNormZ (vsubZ pq.1 pq.2))) 0

/-- Integer mirror of `diameterSq`. -/
def diameterSqZ (vlist : List (List ℤ)) : ℤ :=
  (pairList vlist).foldl (fun m pq => max m (sqNormZ (vsubZ pq.1 pq.2))) 0

/-- Vertices of the hypercube `[-1, 1]^n` (integer coordinates, the base ring
Sage uses for `polytopes.hypercube`). -/
def hypercubeVerticesZ : ℕ → List (List ℤ)
  | 0 => [[]]
  | n + 1 =>
    ((hypercubeVerticesZ n).map (fun v => 1 :: v))
      ++ ((hypercubeVerticesZ n).map (fun v => (-1) :: v))

/-- The vertex list of `7 * polytopes.hypercube(5)`. -/
def scaledCube5Z : List (List ℤ) :=
  (hypercubeVerticesZ 5).map (fun v => v.map (fun c => 7 * c))

/-- A vertex with integer coordinates, viewed in the rational field. -/
def castV (v : List ℤ) : List ℚ := v.map (fun a => (a : ℚ))

/-- A vertex list with integer coordinates, viewed in the rational field. -/
def castM (l : List (List ℤ)) : List (List ℚ) := l.map castV

/-- The vertex list of `7 * polytopes.hypercube(5)`, in the rational field. -/
def scaledCube5 : List (List ℚ) := castM scaledCube5Z

theorem pairList_map {α β : Type} (f : α → β) (l : List α) :
    pairList (l.map f) = (pairList l).map (fun pq => (f pq.1, f pq.2)) := by
  induction l with
  | nil => rfl
  | cons x xs ih =>
    simp [pairList, ih, List.map_map, Function.comp]

theorem vsub_cast (u v : List ℤ) :
    vsub (castV u) (castV v) = castV (vsubZ u v) := by
  induction u generalizing v with
  | nil => cases v <;> rfl
  | cons a u ih =>
    cases v with
    | nil => rfl
    | cons c v =>
      show ((a : ℚ) - (c : ℚ)) :: vsub (castV u) (castV v)
          = ((a - c : ℤ) : ℚ) :: castV (vsubZ u v)
      rw [ih, Int.cast_sub]

theorem foldl_max_cast (l : List ℤ) (acc : ℤ) :
    (castV l).foldl max ((acc : ℤ) : ℚ) = ((l.foldl max acc : ℤ) : ℚ) := by
  induction l generalizing acc with
  | nil => rfl
  | cons a l ih =>
    show (castV l).foldl max (max (acc : ℚ) (a : ℚ)) = ((l.foldl max (max acc a) : ℤ) : ℚ)
    rw [← Int.cast_max, ih]

theorem map_abs_cast (v : List ℤ) :
    (castV v).map (fun a => |a|) = castV (v.map (fun a => |a|)) := by
  induction v with
  | nil => rfl
  | cons a v ih =>
    show |(a : ℚ)| :: (castV v).map (fun a => |a|)
        = ((|a| : ℤ) : ℚ) :: castV (v.map (fun a => |a|))
    rw [ih, Int.cast_abs]

theorem supNorm_cast (v : List ℤ) :
    supNorm (castV v) = ((supNormZ v : ℤ) : ℚ) := by
  unfold supNorm supNormZ
  rw [map_abs_cast]
  have h0 : (0 : ℚ) = ((0 : ℤ) : ℚ) := by norm_num
  rw [h0, foldl_max_cast]

theorem sqNorm_cast (v : List ℤ) :
    sqNorm (castV v) = ((sqNormZ v : ℤ) : ℚ) := by
  induction v with
  | nil => rfl
  | cons a v ih =>
    have h1 : sqNorm (castV (a :: v)) = (a : ℚ) * (a : ℚ) + sqNorm (castV v) := by
      show (((a : ℚ) * (a : ℚ)) :: (castV v).map (fun x => x * x)).sum
          = (a : ℚ) * (a : ℚ) + sqNorm (castV v)
      rw [List.sum_cons]
      rfl
    have h2 : sqNormZ (a :: v) = a * a + sqNormZ v := by
      show ((a * a) :: v.map (fun x => x * x)).sum = a * a + sqNormZ v
      rw [List.sum_cons]
      rfl
    rw [h1, h2, ih, Int.cast_add, Int.cast_mul]

theorem foldl_max_comp_cast {α : Type} (F : α → ℤ) (l : List α) (acc : ℤ) :
    l.foldl (fun m x => max m ((F x : ℤ) : ℚ)) ((acc : ℤ) : ℚ)
      = ((l.foldl (fun m x => max m (F x)) acc : ℤ) : ℚ) := by
  induction l generalizing acc with
  | nil => rfl
  | cons a l ih =>
    simp only [List.foldl_cons, ← Int.cast_max, ih]

theorem diameter_sup_cast (l : List (List ℤ)) :
    diameter_vertex_enumeration_sup (castM l) = ((diameterSupZ l : ℤ) : ℚ) := by
  unfold diameter_vertex_enumeration_sup diameterSupZ castM
  rw [pairList_map, List.foldl_map]
  simp only [vsub_cast, supNorm_cast]
  have h0 : (0 : ℚ) = ((0 : ℤ) : ℚ) := by norm_num
  rw [h0, foldl_max_comp_cast]

theorem diameterSq_cast (l : List (List ℤ)) :
    diameterSq (castM l) = ((diameterSqZ l : ℤ) : ℚ) := by
  unfold diameterSq diameterSqZ castM
  rw [pairList_map, List.foldl_map]
  simp only [vsub_cast, sqNorm_cast]
  have h0 : (0 : ℚ) = ((0 : ℤ) : ℚ) := by norm_num
  rw [h0, foldl_max_comp_cast]

theorem foldl_max_le {α : Type} (F : α → ℤ) (c : ℤ) (l : List α) :
    ∀ acc : ℤ, acc ≤ c → (∀ x ∈ l, F x ≤ c) →
      l.foldl (fun m x => max m (F x)) acc ≤ c := by
  induction l with
  | nil => intro acc hacc _; exact hacc
  | cons a l ih =>
    intro acc hacc h
    exact ih (max acc (F a)) (max_le hacc (h a (by simp)))
      (fun x hx => h x (by simp [hx]))

theorem foldl_max_ge_acc {α : Type} (F : α → ℤ) (l : List α) :
    ∀ acc : ℤ, acc ≤ l.foldl (fun m x => max m (F x)) acc := by
  induction l with
  | nil => intro acc; exact le_refl acc
  | cons a l ih =>
    intro acc
    exact le_trans (le_max_left acc (F a)) (ih (max acc (F a)))

theorem foldl_max_ge_mem {α : Type} (F : α → ℤ) (l : List α) (x : α) (hx : x ∈ l) :
    ∀ acc : ℤ, F x ≤ l.foldl (fun m y => max m (F y)) acc := by
  induction l with
  | nil => cases hx
  | cons a l ih =>
    intro acc
    simp only [List.foldl_cons]
    rcases List.mem_cons.mp hx with h | h
    · subst h
      exact le_trans (le_max_right acc (F x)) (foldl_max_ge_acc F l (max acc (F x)))
    · exact ih h (max acc (F a))

theorem foldl_max_le_plain (l : List ℤ) (c : ℤ) :
    ∀ acc : ℤ, acc ≤ c → (∀ x ∈ l, x ≤ c) → l.foldl max acc ≤ c := by
  induction l with
  | nil => intro acc hacc _; exact hacc
  | cons a l ih =>
    intro acc hacc h
    exact ih (max acc a) (max_le hacc (h a (by simp))) (fun x hx => h x (by simp [hx]))

theorem pairList_mem {α : Type} (l : List α) (pq : α × α) (h : pq ∈ pairList l) :
    pq.1 ∈ l ∧ pq.2 ∈ l := by
  induction l with
  | nil => cases h
  | cons a l ih =>
    simp only [pairList] at h
    rcases List.mem_append.mp h with h1 | h1
    · obtain ⟨y, hy, rfl⟩ := List.mem_map.mp h1
      exact ⟨by simp, by simp [hy]⟩
    · have h2 := ih h1
      exact ⟨by simp [h2.1], by simp [h2.2]⟩

theorem mem_pairList_cons {α : Type} (x y : α) (xs : List α) (hy : y ∈ xs) :
    (x, y) ∈ pairList (x :: xs) := by
  simp only [pairList]
  exact List.mem_append_left _ (List.mem_map_of_mem _ hy)

theorem hypercubeVerticesZ_spec :
    ∀ n, ∀ v ∈ hypercubeVerticesZ n, v.length = n ∧ ∀ c ∈ v, c = 1 ∨ c = -1 := by
  intro n
  induction n with
  | zero =>
    intro v hv
    simp only [hypercubeVerticesZ, List.mem_singleton] at hv
    subst hv
    exact ⟨rfl, fun c hc => absurd hc (List.not_mem_nil c)⟩
  | succ n ih =>
    intro v hv
    simp only [hypercubeVerticesZ] at hv
    rcases List.mem_append.mp hv with h | h
    · obtain ⟨w, hw, rfl⟩ := List.mem_map.mp h
      have hs := ih w hw
      refine ⟨by simp [hs.1], ?_⟩
      intro c hc
      rcases List.mem_cons.mp hc with rfl | hc2
      · exact Or.inl rfl
      · exact hs.2 c hc2
    · obtain ⟨w, hw, rfl⟩ := List.mem_map.mp h
      have hs := ih w hw
      refine ⟨by simp [hs.1], ?_⟩
      intro c hc
      rcases List.mem_cons.mp hc with rfl | hc2
      · exact Or.inr rfl
      · exact hs.2 c hc2

theorem scaledCube5Z_spec :
    ∀ v ∈ scaledCube5Z, v.length = 5 ∧ ∀ c ∈ v, c = 7 ∨ c = -7 := by
  intro v hv
  simp only [scaledCube5Z] at hv
  obtain ⟨w, hw, rfl⟩ := List.mem_map.mp hv
  have hs := hypercubeVerticesZ_spec 5 w hw
  refine ⟨by simp [hs.1], ?_⟩
  intro c hc
  obtain ⟨e, he, rfl⟩ := List.mem_map.mp hc
  rcases hs.2 e he with rfl | rfl
  · exact Or.inl (by norm_num)
  · exact Or.inr (by norm_num)

theorem vsubZ_mem (u v : List ℤ) (d : ℤ) (hd : d ∈ vsubZ u v) :
    ∃ a ∈ u, ∃ c ∈ v, d = a - c := by
  induction u generalizing v with
  | nil => simp [vsubZ] at hd
  | cons a u ih =>
    cases v with
    | nil => simp [vsubZ] at hd
    | cons c v =>
      simp only [vsubZ, List.zipWith_cons_cons, List.mem_cons] at hd
      rcases hd with rfl | hd2
      · exact ⟨a, by simp, c, by simp, rfl⟩
      · obtain ⟨x, hx, y, hy, rfl⟩ := ih v hd2
        exact ⟨x, by simp [hx], y, by simp [hy], rfl⟩

theorem pair_supNorm_le (u v : List ℤ)
    (hu : ∀ c ∈ u, c = 7 ∨ c = -7) (hv : ∀ c ∈ v, c = 7 ∨ c = -7) :
    supNormZ (vsubZ u v) ≤ 14 := by
  unfold supNormZ
  apply foldl_max_le_plain _ _ 0 (by norm_num)
  intro s hs
  obtain ⟨d, hd, rfl⟩ := List.mem_map.mp hs
  obtain ⟨a, ha, c, hc, rfl⟩ := vsubZ_mem u v d hd
  rcases hu a ha with rfl | rfl <;> rcases hv c hc with rfl | rfl <;> norm_num

theorem sum_le_length_mul (l : List ℤ) (c : ℤ) (h : ∀ a ∈ l, a ≤ c) :
    l.sum ≤ (l.length : ℤ) * c := by
  induction l with
  | nil => simp
  | cons a l ih =>
    simp only [List.sum_cons, List.length_cons]
    have h1 := ih (fun x hx => h x (by simp [hx]))
    have h2 := h a (by simp)
    push_cast
    linarith

theorem pair_sqNorm_le (u v : List ℤ)
    (hu : ∀ c ∈ u, c = 7 ∨ c = -7) (hv : ∀ c ∈ v, c = 7 ∨ c = -7)
    (hlu : u.length = 5) (hlv : v.length = 5) :
    sqNormZ (vsubZ u v) ≤ 980 := by
  unfold sqNormZ
  have hlen : ((vsubZ u v).map (fun a => a * a)).length = 5 := by
    simp [vsubZ, hlu, hlv]
  have hb : ∀ s ∈ (vsubZ u v).map (fun a => a * a), s ≤ 196 := by
    intro s hs
    obtain ⟨d, hd, rfl⟩ := List.mem_map.mp hs
    obtain ⟨a, ha, c, hc, rfl⟩ := vsubZ_mem u v d hd
    rcases hu a ha with rfl | rfl <;> rcases hv c hc with rfl | rfl <;> norm_num
  have hsum := sum_le_length_mul _ 196 hb
  rw [hlen] at hsum
  push_cast at hsum
  linarith

theorem diameterSupZ_scaledCube5Z : diameterSupZ scaledCube5Z = 14 := by
  apply le_antisymm
  · unfold diameterSupZ
    apply foldl_max_le _ 14 _ 0 (by norm_num)
    intro pq hpq
    have h12 := pairList_mem _ _ hpq
    exact pair_supNorm_le _ _ (scaledCube5Z_spec _ h12.1).2 (scaledCube5Z_spec _ h12.2).2
  · have hh : scaledCube5Z = [7, 7, 7, 7, 7] :: List.tail scaledCube5Z := rfl
    have hpair : ([7, 7, 7, 7, 7], ([-7, -7, -7, -7, -7] : List ℤ))
        ∈ pairList scaledCube5Z := by
      rw [hh]
      apply mem_pairList_cons
      decide
    have hge := foldl_max_ge_mem (fun pq => supNormZ (vsubZ pq.1 pq.2)) _ _ hpair 0
    have hval : supNormZ (vsubZ [7, 7, 7, 7, 7] [-7, -7, -7, -7, -7]) = 14 := by decide
    calc (14 : ℤ) = supNormZ (vsubZ [7, 7, 7, 7, 7] [-7, -7, -7, -7, -7]) := hval.symm
    _ ≤ diameterSupZ scaledCube5Z := hge

theorem diameterSqZ_scaledCube5Z : diameterSqZ scaledCube5Z = 980 := by
  apply le_antisymm
  · unfold diameterSqZ
    apply foldl_max_le _ 980 _ 0 (by norm_num)
    intro pq hpq
    have h12 := pairList_mem _ _ hpq
    exact pair_sqNorm_le _ _ (scaledCube5Z_spec _ h12.1).2 (scaledCube5Z_spec _ h12.2).2
      (scaledCube5Z_spec _ h12.1).1 (scaledCube5Z_spec _ h12.2).1
  · have hh : scaledCube5Z = [7, 7, 7, 7, 7] :: List.tail scaledCube5Z := rfl
    have hpair : ([7, 7, 7, 7, 7], ([-7, -7, -7, -7, -7] : List ℤ))
        ∈ pairList scaledCube5Z := by
      rw [hh]
      apply mem_pairList_cons
      decide
    have hge := foldl_max_ge_mem (fun pq => sqNormZ (vsubZ pq.1 pq.2)) _ _ hpair 0
    have hval : sqNormZ (vsubZ [7, 7, 7, 7, 7] [-7, -7, -7, -7, -7]) = 980 := by decide
    calc (980 : ℤ) = sqNormZ (vsubZ [7, 7, 7, 7, 7] [-7, -7, -7, -7, -7]) := hval.symm
    _ ≤ diameterSqZ scaledCube5Z := hge

theorem diameter_p2_fold_sqrt (pl : List (List ℚ × List ℚ)) :
    ∀ (acq : ℚ) (acr : ℝ), acr = Real.sqrt ((acq : ℚ) : ℝ) →
      pl.foldl (fun diam pq => max diam (Real.sqrt ((sqNorm (vsub pq.1 pq.2) : ℚ) : ℝ))) acr
        = Real.sqrt (((pl.foldl (fun m pq => max m (sqNorm (vsub pq.1 pq.2))) acq : ℚ) : ℝ)) := by
  have hmono : Monotone Real.sqrt := fun u v h => Real.sqrt_le_sqrt h
  induction pl with
  | nil => intro acq acr h; exact h
  | cons a pl ih =>
    intro acq acr h
    simp only [List.foldl_cons]
    apply ih (max acq (sqNorm (vsub a.1 a.2)))
    rw [h, Rat.cast_max]
    exact (hmono.map_max).symm

theorem diameter_p2_eq_sqrt (vlist : List (List ℚ)) :
    diameter_vertex_enumeration_p2 vlist = Real.sqrt ((diameterSq vlist : ℚ) : ℝ) :=
  diameter_p2_fold_sqrt (pairList vlist) 0 0 (by norm_num)

theorem diameter_sup_scaledCube5_aux :
    diameter_vertex_enumeration_sup scaledCube5 = 14 := by
  show diameter_vertex_enumeration_sup (castM scaledCube5Z) = 14
  rw [diameter_sup_cast, diameterSupZ_scaledCube5Z]
  norm_num

theorem diameter_p2_scaledCube5_aux :
    diameter_vertex_enumeration_p2 scaledCube5 = 14 * Real.sqrt 5 := by
  rw [diameter_p2_eq_sqrt]
  have h1 : diameterSq scaledCube5 = 980 := by
    show diameterSq (castM scaledCube5Z) = 980
    rw [diameterSq_cast, diameterSqZ_scaledCube5Z]
    norm_num
  rw [h1]
  have h2 : (((980 : ℚ) : ℚ) : ℝ) = 980 := by norm_num
  rw [h2]
  have h3 : (980 : ℝ) = (14 * Real.sqrt 5) ^ 2 := by
    rw [mul_pow, Real.sq_sqrt (by norm_num : (0 : ℝ) ≤ 5)]
    norm_num
  rw [h3, Real.sqrt_sq (by positivity)]

/-- C3 counterexample: the Euclidean (`p = 2`) vertex-enumeration diameter of
the scaled 5-dimensional hypercube is `14·sqrt 5` (the distance between
opposite corners in dimension 5), not the claimed `14·sqrt 2` (that value
belongs to the 2-dimensional example of the source's doctest). -/
theorem diameter_p2_scaledCube5_ne_14sqrt2 :
    diameter_vertex_enumeration_p2 scaledCube5 ≠ 14 * Real.sqrt 2 := by
  intro h
  rw [diameter_p2_scaledCube5_aux] at h
  have h14 : Real.sqrt 5 = Real.sqrt 2 :=
    mul_left_cancel₀ (by norm_num : (14 : ℝ) ≠ 0) h
  have h5 : (5 : ℝ) = 2 := by
    have e5 : Real.sqrt 5 ^ 2 = 5 := Real.sq_sqrt (by norm_num)
    have e2 : Real.sqrt 2 ^ 2 = 2 := Real.sq_sqrt (by norm_num)
    rw [← e5, ← e2, h14]
  norm_num at h5

/-- C3 amended: for the vertex list of `7 * polytopes.hypercube(5)`, the
vertex-enumeration diameter is `14` under the supremum norm and `14·sqrt 5`
under the Euclidean norm (`p = 2`). -/
theorem diameter_scaledCube5_values :
    diameter_vertex_enumeration_sup scaledCube5 = 14
    ∧ diameter_vertex_enumeration_p2 scaledCube5 = 14 * Real.sqrt 5 :=
  ⟨diameter_sup_scaledCube5_aux, diameter_p2_scaledCube5_aux⟩
